import Mathlib

/-! Shallow embedding of the `gnudeb/chess` core (files `chess/chess.py`,
`chess/types.py`, `chess/moves.py`) in Lean 4, together with proofs of the
behavioural claims about the coordinate model, the move parser, the board
mutation API and the `Game` legality gate.

Python exceptions are modelled by the `ChessErr` inductive; a fallible
operation returns `Except ChessErr α`, and a mutating operation additionally
returns the post-call state (the state at the moment an exception propagates),
so frame properties about failed calls are statable.  Python `dict` objects
are modelled as key-unique association lists with insertion-order semantics.
-/

deriving instance DecidableEq for Except

namespace ChessSpec

/-- Models the Python exception classes raised by the core:
`InvalidNotationError`, `IllegalMoveError`, built-in `KeyError` and built-in
`ValueError`.  The payload is the exception message; `invalidNota` carries an
`Option String` because the core sometimes raises it bare (no arguments). -/
inductive ChessErr
  | invalidNota (msg : Option String)
  | illegalMove (msg : String)
  | keyErr (msg : String)
  | valueErr (msg : String)
deriving DecidableEq

/-- The `PieceColor` enum; member (iteration) order is BLACK, WHITE as in the source. -/
inductive PieceColor
  | BLACK
  | WHITE
deriving DecidableEq

/-- Iteration order of the `PieceColor` enum. -/
def PieceColor.every : List PieceColor := [.BLACK, .WHITE]

/-- The `File` enum, values 0..7 for columns a..h. -/
inductive File
  | A | B | C | D | E | F | G | H
deriving DecidableEq

/-- Iteration order of the `File` enum. -/
def File.every : List File := [.A, .B, .C, .D, .E, .F, .G, .H]

/-- The `File.name` of the Python enum member. -/
def File.name : File → String
  | .A => "A" | .B => "B" | .C => "C" | .D => "D"
  | .E => "E" | .F => "F" | .G => "G" | .H => "H"

/-- Python `str.lower()` (ASCII fragment, which covers every input the core builds). -/
def pyLower (s : String) : String := String.mk (s.data.map Char.toLower)

/-- Python `str.upper()` (ASCII fragment). -/
def pyUpper (s : String) : String := String.mk (s.data.map Char.toUpper)

/-- The `File.from_algebraic_notation`: scans the enum members in order and returns
the one whose lowercased name equals the lowercased input letter; otherwise
raises `InvalidNotationError("No such file: ...")`. -/
def File.from_algebraic (file_letter : String) : Except ChessErr File :=
  match File.every.find? (fun f => pyLower file_letter == pyLower f.name) with
  | some f => .ok f
  | none => .error (.invalidNota (some ("No such file: " ++ file_letter)))

/-- The `Rank`, a NamedTuple holding one (unbounded) integer. -/
structure Rank where
  value : Int
deriving DecidableEq

/-- The `Rank.is_valid_value`: 1 <= rank <= 8. -/
def Rank.is_valid_value (rank : Int) : Bool := 1 ≤ rank && rank ≤ 8

/-- Python `str.isdigit()` (ASCII fragment): nonempty and all characters digits. -/
def pyIsDigit (s : String) : Bool := !s.data.isEmpty && s.data.all Char.isDigit

/-- Python `int(s)` on a string of ASCII digits. -/
def digitsToInt (s : String) : Int :=
  (s.data.foldl (fun a c => a * 10 + (c.toNat - 48)) 0 : Nat)

/-- The `Rank.from_algebraic_notation`: digit check, then range check, then `Rank(int(rank))`. -/
def Rank.from_algebraic (rank : String) : Except ChessErr Rank :=
  if !pyIsDigit rank then
    .error (.invalidNota (some ("Expected digit for rank, got " ++ rank)))
  else if !Rank.is_valid_value (digitsToInt rank) then
    .error (.invalidNota (some (rank ++ " must be in range 1 to 8 inclusive")))
  else
    .ok ⟨digitsToInt rank⟩

/-- The `Rank.every`: `list(map(Rank, range(1, 9)))`. -/
def Rank.every : List Rank := (List.range 8).map (fun i => ⟨(i : Int) + 1⟩)

/-- The `Position`, a NamedTuple of a `File` and a `Rank`. -/
structure Position where
  file : File
  rank : Rank
deriving DecidableEq

/-- The `Position.__str__` from `chess/types.py`: lowercased file name followed by
the rank value (`File.__str__` is `name.lower()`, `Rank.__str__` is `str(value)`). -/
def Position.str (p : Position) : String := pyLower p.file.name ++ toString p.rank.value

/-- The `Position.from_algebraic_notation`: unpacks the string into exactly two
characters (a `ValueError` if the length differs, as Python tuple unpacking
raises) and delegates to the file and rank parsers. -/
def Position.from_algebraic (location : String) : Except ChessErr Position :=
  match location.data with
  | [raw_file, raw_rank] => do
      let f ← File.from_algebraic (String.mk [raw_file])
      let r ← Rank.from_algebraic (String.mk [raw_rank])
      return ⟨f, r⟩
  | _ => .error (.valueErr "unpacking a two-character location failed")

/-- The `Position.every`: `for rank, file in product(reversed(Rank.every()), File)`,
yielding `Position(file, rank)` — rank 8 down to 1, file a to h inside a rank. -/
def Position.every : List Position :=
  (Rank.every.reverse).flatMap (fun rank => File.every.map (fun file => Position.mk file rank))

/-- The `PieceKind` enum; member (definition) order is the source order, each with
its single-letter value. -/
inductive PieceKind
  | PAWN | KNIGHT | QUEEN | KING | ROOK | BISHOP
deriving DecidableEq

/-- Iteration order of the `PieceKind` enum members. -/
def PieceKind.every : List PieceKind := [.PAWN, .KNIGHT, .QUEEN, .KING, .ROOK, .BISHOP]

/-- The `value` of each `PieceKind` enum member. -/
def PieceKind.letter : PieceKind → String
  | .PAWN => "P" | .KNIGHT => "N" | .QUEEN => "Q"
  | .KING => "K" | .ROOK => "R" | .BISHOP => "B"

/-- The `PieceKind.from_letter`: falsy (empty) input yields `PAWN`; otherwise the
Python enum value lookup `PieceKind(letter.upper())`, which raises the built-in
`ValueError` (not `InvalidNotationError`) when no member has that value. -/
def PieceKind.from_letter (letter : String) : Except ChessErr PieceKind :=
  if letter.isEmpty then
    .ok .PAWN
  else
    match PieceKind.every.find? (fun k => k.letter == pyUpper letter) with
    | some k => .ok k
    | none => .error (.valueErr ("'" ++ pyUpper letter ++ "' is not a valid PieceKind"))

/-- The `Piece`, a NamedTuple of kind and color. -/
structure Piece where
  kind : PieceKind
  color : PieceColor
deriving DecidableEq

/-- The `RegularMove` dataclass fields, in source order with source defaults. -/
structure RegularMove where
  destination : Position
  origin : Option Position := none
  piece_kind : Option PieceKind := none
  with_capture : Bool := false
deriving DecidableEq

/-- The closed set of `Move` subclasses, in definition (= dispatch) order:
`RegularMove`, then `CastlingMove` (which holds only its `kingside` flag). -/
inductive Move
  | regular (m : RegularMove)
  | castling (kingside : Bool)
deriving DecidableEq

/-- The regex character class `[KQNBR]` of the RegularMove grammar. -/
def pieceClass : List Char := ['K', 'Q', 'N', 'B', 'R']

/-- The regex character class `[a-h]`. -/
def fileClass : List Char := ['a', 'b', 'c', 'd', 'e', 'f', 'g', 'h']

/-- The regex character class `[1-8]`. -/
def rankClass : List Char := ['1', '2', '3', '4', '5', '6', '7', '8']

/-- The regex character class `[x:]`. -/
def captureClass : List Char := ['x', ':']

/-- The named groups captured by a successful match of the RegularMove regex
`(?P<piece_kind>[KQNBR])? (?P<origin>[a-h][1-8])? (?P<capture>[x:])?
(?P<destination>[a-h][1-8])`; an absent optional group is `none`. -/
structure RegexGroups where
  piece_kind : Option Char
  origin : Option (Char × Char)
  capture : Option Char
  destination : Char × Char
deriving DecidableEq

/-- Matches the mandatory destination group `[a-h][1-8]` at the head of the
input; trailing characters are left unconsumed, as `re.match` does not anchor
the end. -/
def matchDest : List Char → Option (Char × Char)
  | cf :: cr :: _ => if fileClass.contains cf && rankClass.contains cr then some (cf, cr) else none
  | _ => none

/-- The branch of `[x:]? [a-h][1-8]` in which the capture group consumes the
head character. -/
def capHead : List Char → Option (Option Char × (Char × Char))
  | c :: rest =>
      if captureClass.contains c then (matchDest rest).map (fun d => (some c, d)) else none
  | [] => none

/-- Matches `[x:]? [a-h][1-8]`: the greedy branch (capture group present)
first, then the backtracked branch (capture group absent), exactly as the
regex engine does. -/
def matchCapDest (l : List Char) : Option (Option Char × (Char × Char)) :=
  (capHead l).orElse (fun _ => (matchDest l).map (fun d => (none, d)))

/-- The branch of `([a-h][1-8])? [x:]? [a-h][1-8]` in which the origin group
consumes the first two characters. -/
def originHead : List Char → Option (Option (Char × Char) × Option Char × (Char × Char))
  | cf :: cr :: rest =>
      if fileClass.contains cf && rankClass.contains cr then
        (matchCapDest rest).map (fun t => (some (cf, cr), t))
      else none
  | _ => none

/-- Matches `([a-h][1-8])? [x:]? [a-h][1-8]`, greedy on the optional origin
group with backtracking. -/
def matchOriginTail (l : List Char) :
    Option (Option (Char × Char) × Option Char × (Char × Char)) :=
  (originHead l).orElse (fun _ => (matchCapDest l).map (fun t => (none, t)))

/-- The branch of the whole pattern in which the piece-kind group consumes the
head character. -/
def pieceHead : List Char → Option RegexGroups
  | c :: rest =>
      if pieceClass.contains c then
        (matchOriginTail rest).map
          (fun t => RegexGroups.mk (some c) t.1 t.2.1 t.2.2)
      else none
  | [] => none

/-- The `re.match` of the whole RegularMove regex against the token: greedy on the
optional piece-kind group, then the rest of the pattern; `none` when the regex
does not match at the start of the token. -/
def regexMatch (l : List Char) : Option RegexGroups :=
  (pieceHead l).orElse
    (fun _ => (matchOriginTail l).map (fun t => RegexGroups.mk none t.1 t.2.1 t.2.2))

/-- The string Python passes to `PieceKind.from_letter` for an optional regex
group: the group text when matched, the falsy `None` (here `""`, treated
identically by the falsiness test) when absent. -/
def groupText : Option Char → String
  | none => ""
  | some c => String.mk [c]

/-- The `RegularMove.from_algebraic_notation`: regex match (bare
`InvalidNotationError` when it fails), then group conversion — piece kind via
`PieceKind.from_letter`, origin (when present) and destination via
`Position.from_algebraic_notation`, capture flag via group truthiness. -/
def RegularMove.from_algebraic (move : String) : Except ChessErr Move :=
  match regexMatch move.data with
  | none => .error (.invalidNota none)
  | some g => do
      let pk ← PieceKind.from_letter (groupText g.piece_kind)
      let origin ← match g.origin with
        | some o => (Position.from_algebraic (String.mk [o.1, o.2])).map some
        | none => pure (none : Option Position)
      let destination ← Position.from_algebraic (String.mk [g.destination.1, g.destination.2])
      return Move.regular ⟨destination, origin, some pk, g.capture.isSome⟩

/-- The `CastlingMove.from_algebraic_notation`: for each castling letter `"0"`,
`"O"` (in that order) compare the token against the kingside pattern `L-L`
then the queenside pattern `L-L-L`; otherwise a bare `InvalidNotationError`. -/
def CastlingMove.from_algebraic (move : String) : Except ChessErr Move :=
  if move == "0-0" then .ok (.castling true)
  else if move == "0-0-0" then .ok (.castling false)
  else if move == "O-O" then .ok (.castling true)
  else if move == "O-O-O" then .ok (.castling false)
  else .error (.invalidNota none)

/-- The `Move.from_algebraic_notation`: tries the subclasses in definition order
(`RegularMove` then `CastlingMove`), catching only `InvalidNotationError`;
when every subclass rejects, raises a bare `InvalidNotationError` (the
offending token is not attached). -/
def Move.from_algebraic (move : String) : Except ChessErr Move :=
  match RegularMove.from_algebraic move with
  | .ok m => .ok m
  | .error (.invalidNota _) =>
      match CastlingMove.from_algebraic move with
      | .ok m => .ok m
      | .error (.invalidNota _) => .error (.invalidNota none)
      | .error e => .error e
  | .error e => .error e

/-- The board's `_pieces` dictionary: a key-unique association list in
insertion order, the model of a Python `dict` from `Position` to pieces
(polymorphic in the stored value so the identity-tagged board can reuse it). -/
abbrev Dict (α : Type) := List (Position × α)

/-- The `d[k] = v`: updates the first entry with key `k` in place, else appends. -/
def dictInsert {α : Type} (k : Position) (v : α) : Dict α → Dict α
  | [] => [(k, v)]
  | (k', v') :: rest =>
      if k' = k then (k, v) :: rest else (k', v') :: dictInsert k v rest

/-- The `d.get(k)`-style lookup: the value of the first entry with key `k`. -/
def dictLookup {α : Type} (k : Position) : Dict α → Option α
  | [] => none
  | (k', v') :: rest => if k' = k then some v' else dictLookup k rest

/-- The mutation performed by `d.pop(k)`: drops the first entry with key `k`. -/
def dictDrop {α : Type} (k : Position) : Dict α → Dict α
  | [] => []
  | (k', v') :: rest => if k' = k then rest else (k', v') :: dictDrop k rest

/-- The `Board`'s sparse `Position → Piece` mapping. -/
abbrev Board := Dict Piece

/-- The `Position.__repr__` from `chess/chess.py`: `Position(<file name>, <rank repr>)`,
where the NamedTuple `Rank` reprs as `Rank(value=<n>)`; used in error messages. -/
def posRepr (p : Position) : String :=
  "Position(" ++ p.file.name ++ ", Rank(value=" ++ toString p.rank.value ++ "))"

/-- Python's rendering of an `Optional[Position]` in an f-string: the repr for
an actual position, the literal `None` otherwise. -/
def posReprOpt : Option Position → String
  | some p => posRepr p
  | none => "None"

/-- The `Board.place_piece`: unconditional upsert of the mapping. -/
def Board.place_piece (b : Board) (piece : Piece) (position : Position) : Board :=
  dictInsert position piece b

/-- The `Board.has_piece_at`: `position in self._pieces.keys()`. -/
def Board.has_piece_at (b : Board) (position : Position) : Bool :=
  (dictLookup position b).isSome

/-- The `Board.piece_at`: the piece at the position, or a `KeyError` when the
square is empty. -/
def Board.piece_at (b : Board) (position : Position) : Except ChessErr Piece :=
  match dictLookup position b with
  | some piece => .ok piece
  | none => .error (.keyErr ("No piece present at " ++ posRepr position))

/-- The `Board._remove_piece_at`: `self._pieces.pop(position)`, rethrowing the
`KeyError` of a missing key as `IllegalMoveError`; returns the popped piece and
the mapping after the call (unchanged when the pop raised). -/
def Board.remove_piece_at (b : Board) (position : Position) :
    Except ChessErr Piece × Board :=
  match dictLookup position b with
  | some piece => (.ok piece, dictDrop position b)
  | none => (.error (.illegalMove ("No piece present at " ++ posRepr position)), b)

/-- The `Board.move_piece`: pops the piece at the origin (propagating
`IllegalMoveError` before any mutation when the origin is empty) and places it
at the destination; the second component is the mapping after the call. -/
def Board.move_piece (b : Board) (origin destination : Position) :
    Except ChessErr Unit × Board :=
  match b.remove_piece_at origin with
  | (.ok piece, b1) => (.ok (), b1.place_piece piece destination)
  | (.error e, b1) => (.error e, b1)

/-- The `Board._pawn_rank_for_color`: WHITE → 2, BLACK → 7. -/
def pawn_rank_for_color : PieceColor → Rank
  | .WHITE => ⟨2⟩
  | .BLACK => ⟨7⟩

/-- The `Board._heavy_piece_rank_for_color`: WHITE → 1, BLACK → 8. -/
def heavy_piece_rank_for_color : PieceColor → Rank
  | .WHITE => ⟨1⟩
  | .BLACK => ⟨8⟩

/-- The `Board._default_piece_locations` / `_piece_kind_for_file`: the fixed
file → kind table of the back rank. -/
def piece_kind_for_file : File → PieceKind
  | .A => .ROOK
  | .B => .KNIGHT
  | .C => .BISHOP
  | .D => .QUEEN
  | .E => .KING
  | .F => .BISHOP
  | .G => .KNIGHT
  | .H => .ROOK

/-- The `Board._starting_pawn_positions`: every file on the color's pawn rank. -/
def starting_pawn_positions (color : PieceColor) : List Position :=
  File.every.map (fun file => ⟨file, pawn_rank_for_color color⟩)

/-- The `Board._place_pawns`: for each color (BLACK then WHITE, the enum order),
place a pawn of that color on each starting pawn position. -/
def Board.place_pawns (b : Board) : Board :=
  PieceColor.every.foldl
    (fun b color =>
      (starting_pawn_positions color).foldl
        (fun b position => b.place_piece ⟨.PAWN, color⟩ position) b)
    b

/-- The `Board._place_heavy_pieces`: for `(color, file)` in
`product(PieceColor, File)`, place the file's kind on the color's back rank. -/
def Board.place_heavy_pieces (b : Board) : Board :=
  (PieceColor.every.flatMap (fun color => File.every.map (fun file => (color, file)))).foldl
    (fun b cf =>
      b.place_piece ⟨piece_kind_for_file cf.2, cf.1⟩ ⟨cf.2, heavy_piece_rank_for_color cf.1⟩)
    b

/-- The `Board.__init__`: an empty mapping, then `_set_up_new_game` (pawns, then
heavy pieces). -/
def Board.new : Board := Board.place_heavy_pieces (Board.place_pawns [])

/-- The `Game` dataclass: a board (fresh standard board by default) and the
current player (WHITE by default). -/
structure Game where
  board : Board := Board.new
  current_player : PieceColor := .WHITE
deriving DecidableEq

/-- The `has_piece_at` as reached with the `Optional[Position]` origin of a
`RegularMove`: `None in self._pieces.keys()` is `False`, because the mapping
only ever holds genuine `Position` keys. -/
def Board.has_piece_at_opt (b : Board) : Option Position → Bool
  | some p => b.has_piece_at p
  | none => false

/-- The `piece_at` as reached with an `Optional[Position]`: for `None` the
membership test fails and a `KeyError` is raised. -/
def Board.piece_at_opt (b : Board) : Option Position → Except ChessErr Piece
  | some p => b.piece_at p
  | none => .error (.keyErr "No piece present at None")

/-- The `move_piece` as reached with an `Optional[Position]` origin: for `None`,
`dict.pop` raises `KeyError`, rethrown as `IllegalMoveError`, before any
mutation. -/
def Board.move_piece_opt (b : Board) :
    Option Position → Position → Except ChessErr Unit × Board
  | some o, d => b.move_piece o d
  | none, _ => (.error (.illegalMove "No piece present at None"), b)

/-- The `Game._ensure_piece_is_present_at`: `IllegalMoveError` when the (possibly
`None`) origin square has no piece. -/
def Game.ensure_piece_is_present_at (g : Game) (position : Option Position) :
    Except ChessErr Unit :=
  if g.board.has_piece_at_opt position then .ok ()
  else
    .error (.illegalMove
      ("Tried to move piece from " ++ posReprOpt position ++ ", but square is empty"))

/-- The `PieceColor` as rendered by an f-string in `chess/chess.py` (default enum
`__str__`). -/
def colorRepr : PieceColor → String
  | .BLACK => "PieceColor.BLACK"
  | .WHITE => "PieceColor.WHITE"

/-- The `Game._ensure_player_can_move`: `IllegalMoveError` when the piece's color
is not the current player's. -/
def Game.ensure_player_can_move (g : Game) (piece : Piece) : Except ChessErr Unit :=
  if piece.color ≠ g.current_player then
    .error (.illegalMove
      ("Tried to move " ++ colorRepr piece.color ++ " piece, but it is "
        ++ colorRepr g.current_player ++ "'s turn"))
  else .ok ()

/-- The `Game._attempt_regular_move`: presence check, then color check, then
`Board.move_piece(origin, destination)`; the second component is the game
state after the call (unchanged whenever an exception propagates before the
board mutation). -/
def Game.attempt_regular_move (g : Game) (move : RegularMove) :
    Except ChessErr Unit × Game :=
  match g.ensure_piece_is_present_at move.origin with
  | .error e => (.error e, g)
  | .ok () =>
      match g.board.piece_at_opt move.origin with
      | .error e => (.error e, g)
      | .ok piece =>
          match g.ensure_player_can_move piece with
          | .error e => (.error e, g)
          | .ok () =>
              ((g.board.move_piece_opt move.origin move.destination).1,
                { g with board := (g.board.move_piece_opt move.origin move.destination).2 })

/-- The `Game.attempt_move`: delegates `RegularMove`s to `_attempt_regular_move`
and does nothing at all for any other move (in particular `CastlingMove`). -/
def Game.attempt_move (g : Game) (move : Move) : Except ChessErr Unit × Game :=
  match move with
  | .regular m => g.attempt_regular_move m
  | .castling _ => (.ok (), g)

/-- Returns `true` exactly when the outcome is a raised `IllegalMoveError`. -/
def errIsIllegalMove : Except ChessErr Unit → Bool
  | .error (.illegalMove _) => true
  | _ => false

/-- A stored piece together with its object identity, for the identity-based
reverse lookup: two structurally equal pieces placed separately are distinct
objects and carry distinct tags. -/
structure TaggedPiece where
  id : Nat
  piece : Piece
deriving DecidableEq

/-- A board mapping whose values keep their object identity. -/
abbrev BoardI := Dict TaggedPiece

/-- Modelled from the spec: `Board.position_of` is called by the repository's
tests but its definition is absent from the sources under `src/`; §4.3 of the
spec describes it as a reverse lookup by object identity — valid for piece
objects previously retrieved from this exact board, failing with a not-found
error for a freshly constructed equal-valued piece.  Object identity is
modelled by the explicit `id` tag. -/
def BoardI.position_of (b : BoardI) (piece : TaggedPiece) : Except ChessErr Position :=
  match b.find? (fun e => e.2.id == piece.id) with
  | some e => .ok e.1
  | none => .error (.keyErr "piece not found on this board")

/-- The fresh standard board with object identities: the same mapping as
`Board.new`, each placed piece being a distinct object (tags in placement
order). -/
def BoardI.new : BoardI :=
  Board.new.enum.map (fun e => (e.2.1, TaggedPiece.mk e.1 e.2.2))

/-- Returns `true` exactly when the operation returned normally. -/
def exceptIsOk {α : Type} : Except ChessErr α → Bool
  | .ok _ => true
  | .error _ => false

/-- Claim-side description of the back-rank file → kind mapping:
A:ROOK, B:KNIGHT, C:BISHOP, D:QUEEN, E:KING, F:BISHOP, G:KNIGHT, H:ROOK. -/
def backRankKind : File → PieceKind
  | .A => .ROOK
  | .B => .KNIGHT
  | .C => .BISHOP
  | .D => .QUEEN
  | .E => .KING
  | .F => .BISHOP
  | .G => .KNIGHT
  | .H => .ROOK

/-- Claim-side description of a fresh standard board: pawns on rank 2 (WHITE)
and rank 7 (BLACK), the back-rank mapping on rank 1 (WHITE) and rank 8
(BLACK), every other square empty. -/
def standardPlacement (p : Position) : Option Piece :=
  if p.rank = ⟨2⟩ then some ⟨.PAWN, .WHITE⟩
  else if p.rank = ⟨7⟩ then some ⟨.PAWN, .BLACK⟩
  else if p.rank = ⟨1⟩ then some ⟨backRankKind p.file, .WHITE⟩
  else if p.rank = ⟨8⟩ then some ⟨backRankKind p.file, .BLACK⟩
  else none

/-- The 52 ASCII letters, the domain over which the `from_letter` claim
quantifies. -/
def letterChars : List Char :=
  ['a', 'b', 'c', 'd', 'e', 'f', 'g', 'h', 'i', 'j', 'k', 'l', 'm',
   'n', 'o', 'p', 'q', 'r', 's', 't', 'u', 'v', 'w', 'x', 'y', 'z',
   'A', 'B', 'C', 'D', 'E', 'F', 'G', 'H', 'I', 'J', 'K', 'L', 'M',
   'N', 'O', 'P', 'Q', 'R', 'S', 'T', 'U', 'V', 'W', 'X', 'Y', 'Z']

/-- Claim-side description (as amended) of `PieceKind.from_letter` on a single
letter: the kind whose tag is the letter's uppercase form — including `P`,
whose tag is PAWN's — and a `ValueError` for every other letter. -/
def expectedFromLetter (c : Char) : Except ChessErr PieceKind :=
  if c.toUpper = 'K' then .ok .KING
  else if c.toUpper = 'Q' then .ok .QUEEN
  else if c.toUpper = 'N' then .ok .KNIGHT
  else if c.toUpper = 'B' then .ok .BISHOP
  else if c.toUpper = 'R' then .ok .ROOK
  else if c.toUpper = 'P' then .ok .PAWN
  else .error (.valueErr ("'" ++ String.mk [c.toUpper] ++ "' is not a valid PieceKind"))

/-- Claim-side numbering of the files, a to h, used to spell out the claimed
enumeration order of `Position.every`. -/
def File.ofIdx : Nat → File
  | 0 => .A
  | 1 => .B
  | 2 => .C
  | 3 => .D
  | 4 => .E
  | 5 => .F
  | 6 => .G
  | _ => .H

/-! Helper lemmas about the dictionary model. -/

theorem dictLookup_dictInsert_self {α : Type} (k : Position) (v : α) (l : Dict α) :
    dictLookup k (dictInsert k v l) = some v := by
  induction l with
  | nil => simp [dictInsert, dictLookup]
  | cons e rest ih =>
      obtain ⟨k', v'⟩ := e
      by_cases h : k' = k
      · simp [dictInsert, dictLookup, h]
      · simp [dictInsert, dictLookup, h, ih]

theorem dictLookup_dictInsert_ne {α : Type} (q k : Position) (v : α) (l : Dict α)
    (h : q ≠ k) : dictLookup q (dictInsert k v l) = dictLookup q l := by
  induction l with
  | nil => simp [dictInsert, dictLookup, Ne.symm h]
  | cons e rest ih =>
      obtain ⟨k', v'⟩ := e
      by_cases hk : k' = k
      · subst hk
        simp [dictInsert, dictLookup, Ne.symm h]
      · by_cases hq : k' = q
        · subst hq
          simp [dictInsert, dictLookup, hk, dictLookup, h]
        · simp [dictInsert, dictLookup, hk, hq, ih]

theorem dictLookup_dictDrop_ne {α : Type} (q k : Position) (l : Dict α)
    (h : q ≠ k) : dictLookup q (dictDrop k l) = dictLookup q l := by
  induction l with
  | nil => simp [dictDrop]
  | cons e rest ih =>
      obtain ⟨k', v'⟩ := e
      by_cases hk : k' = k
      · subst hk
        simp [dictDrop, dictLookup, Ne.symm h]
      · by_cases hq : k' = q
        · subst hq
          simp [dictDrop, dictLookup, hk, h]
        · simp [dictDrop, dictLookup, hk, hq, ih]

theorem dictLookup_eq_none_of_not_mem {α : Type} (k : Position) (l : Dict α)
    (h : k ∉ l.map Prod.fst) : dictLookup k l = none := by
  induction l with
  | nil => rfl
  | cons e rest ih =>
      obtain ⟨k', v'⟩ := e
      simp only [List.map_cons, List.mem_cons] at h
      push_neg at h
      simp [dictLookup, Ne.symm h.1, ih h.2]

theorem dictLookup_dictDrop_self {α : Type} (k : Position) (l : Dict α)
    (hnd : (l.map Prod.fst).Nodup) : dictLookup k (dictDrop k l) = none := by
  induction l with
  | nil => rfl
  | cons e rest ih =>
      obtain ⟨k', v'⟩ := e
      simp only [List.map_cons, List.nodup_cons] at hnd
      by_cases h : k' = k
      · subst h
        simp only [dictDrop, if_pos rfl]
        exact dictLookup_eq_none_of_not_mem k' rest hnd.1
      · simp [dictDrop, dictLookup, h, ih hnd.2]

theorem dictLookup_mem {α : Type} (k : Position) (v : α) (l : Dict α)
    (h : dictLookup k l = some v) : (k, v) ∈ l := by
  induction l with
  | nil => simp [dictLookup] at h
  | cons e rest ih =>
      obtain ⟨k', v'⟩ := e
      by_cases hk : k' = k
      · subst hk
        simp [dictLookup] at h
        subst h
        exact List.mem_cons_self _ _
      · simp only [dictLookup, if_neg hk] at h
        exact List.mem_cons_of_mem _ (ih h)

/-! Claim theorems about the coordinate model and the standard setup. -/

/-- C8: `Position.every` yields exactly 64 pairwise-distinct positions, in the
fixed deterministic order rank 8 down to rank 1 and, within each rank, file a
to h; as a pure value it is trivially restartable (every traversal is the same
list). -/
theorem position_every_enumeration :
    Position.every.length = 64 ∧ Position.every.Nodup ∧
    Position.every = (List.range 8).flatMap
      (fun rk => (List.range 8).map
        (fun fi => Position.mk (File.ofIdx fi) ⟨8 - (rk : Int)⟩)) :=
  ⟨by decide, by decide, by decide⟩

/-- C7: parsing a lowercase file letter followed by a rank digit as a
`Position` and re-serializing it reproduces the same two-character token. -/
theorem position_parse_roundtrip :
    (fileClass.all fun f => rankClass.all fun r =>
      decide ((Position.from_algebraic (String.mk [f, r])).map Position.str
        = .ok (String.mk [f, r]))) = true := by decide

/-- C5: a fresh standard board holds exactly 32 pieces, and every square holds
exactly the piece the standard setup claims (pawns on ranks 2 and 7, the fixed
back-rank mapping on ranks 1 and 8, all other squares empty). -/
theorem fresh_board_standard_setup :
    Board.new.length = 32 ∧
    (Position.every.all fun p =>
      decide (dictLookup p Board.new = standardPlacement p)) = true :=
  ⟨by decide, by decide⟩

/-- C6 counterexample: `PieceKind.from_letter` does not fail on every letter
outside {K,Q,N,B,R}: the letter `P` (PAWN's own tag) is accepted and yields
PAWN, and a genuinely unknown letter such as `z` fails with the built-in
`ValueError` of the enum value lookup, not with `InvalidNotationError`. -/
theorem fromLetter_claim_fails :
    PieceKind.from_letter "P" = .ok PieceKind.PAWN ∧
    PieceKind.from_letter "z" = .error (.valueErr "'Z' is not a valid PieceKind") :=
  ⟨by decide, by decide⟩

/-- C6 as amended: `from_letter` returns PAWN for the empty input; a single
letter whose uppercase form is in {K,Q,N,B,R,P} yields the corresponding kind
(`P` yields PAWN); every other letter fails with the enum lookup's
`ValueError`. -/
theorem fromLetter_contract :
    PieceKind.from_letter "" = .ok PieceKind.PAWN ∧
    (letterChars.all fun c =>
      decide (PieceKind.from_letter (String.mk [c]) = expectedFromLetter c)) = true :=
  ⟨by decide, by decide⟩

/-! Claim theorems about the Game legality gate and the board mutation API. -/

/-- C9: `attempt_move` never changes `current_player`, for any move and any
outcome; and a `CastlingMove` performs no mutation at all (the call returns
normally with the game state untouched). -/
theorem attemptMove_preserves_player_castling_noop
    (g : Game) (m : Move) (ks : Bool) :
    (g.attempt_move m).2.current_player = g.current_player ∧
    g.attempt_move (.castling ks) = (.ok (), g) := by
  refine ⟨?_, rfl⟩
  cases m with
  | castling k => rfl
  | regular rm =>
      show (g.attempt_regular_move rm).2.current_player = g.current_player
      unfold Game.attempt_regular_move
      split
      · rfl
      · split
        · rfl
        · split
          · rfl
          · rfl

/-- C10: `attempt_move` with a `RegularMove` whose origin is `None` does not
crash with an unchecked error: the emptiness check treats the null origin as
an empty square (`None` is a member of no position-keyed mapping), so the call
raises `IllegalMoveError` and leaves the board and the current player
unchanged. -/
theorem attemptMove_null_origin_illegal
    (g : Game) (d : Position) (pk : Option PieceKind) (cap : Bool) :
    errIsIllegalMove (g.attempt_move (.regular ⟨d, none, pk, cap⟩)).1 = true ∧
    (g.attempt_move (.regular ⟨d, none, pk, cap⟩)).2 = g :=
  ⟨rfl, rfl⟩

/-- C1: whenever the board has no piece at a `RegularMove`'s (non-null)
origin, or the piece at the origin has a color other than the current
player's, `attempt_move` fails with `IllegalMoveError` and the game — in
particular its board mapping — is exactly the same after the call. -/
theorem attemptMove_rejects_bad_origin
    (g : Game) (rm : RegularMove) (o : Position)
    (ho : rm.origin = some o)
    (hbad : dictLookup o g.board = none ∨
      ∃ piece, dictLookup o g.board = some piece ∧ piece.color ≠ g.current_player) :
    errIsIllegalMove (g.attempt_move (.regular rm)).1 = true ∧
    (g.attempt_move (.regular rm)).2 = g := by
  rcases hbad with hnone | ⟨piece, hsome, hcol⟩
  · simp [Game.attempt_move, Game.attempt_regular_move, Game.ensure_piece_is_present_at,
      Board.has_piece_at_opt, Board.has_piece_at, ho, hnone, errIsIllegalMove]
  · simp [Game.attempt_move, Game.attempt_regular_move, Game.ensure_piece_is_present_at,
      Board.has_piece_at_opt, Board.has_piece_at, Board.piece_at_opt, Board.piece_at,
      Game.ensure_player_can_move, ho, hsome, hcol, errIsIllegalMove]

/-- Witness for C1: on a fresh game (WHITE to move), moving from the
BLACK-occupied a7 is rejected with `IllegalMoveError` and the game is
unchanged. -/
theorem attemptMove_rejects_bad_origin_w :
    errIsIllegalMove
      (Game.attempt_move {} (.regular ⟨⟨.A, ⟨6⟩⟩, some ⟨.A, ⟨7⟩⟩, some .PAWN, false⟩)).1
      = true ∧
    (Game.attempt_move {} (.regular ⟨⟨.A, ⟨6⟩⟩, some ⟨.A, ⟨7⟩⟩, some .PAWN, false⟩)).2
      = ({} : Game) :=
  attemptMove_rejects_bad_origin {} _ ⟨.A, ⟨7⟩⟩ rfl
    (Or.inr ⟨⟨.PAWN, .BLACK⟩, by decide, by decide⟩)

/-- C2: `move_piece` fails with `IllegalMoveError` and leaves the mapping
unmutated when the origin is empty; otherwise it returns normally, the moved
piece value sits at the destination (any occupant overwritten), the origin is
emptied, and no other square changes.  On a fresh standard board, moving e2 to
e4 empties e2, fills e4, and the piece at e4 is value-equal to the piece that
was at e2. -/
theorem movePiece_contract :
    (∀ (b : Board) (o d : Position),
        dictLookup o b = none →
        b.move_piece o d =
          (.error (.illegalMove ("No piece present at " ++ posRepr o)), b)) ∧
    (∀ (b : Board) (o d : Position) (piece : Piece),
        (b.map Prod.fst).Nodup →
        dictLookup o b = some piece →
        (b.move_piece o d).1 = .ok () ∧
        dictLookup d (b.move_piece o d).2 = some piece ∧
        (o ≠ d → dictLookup o (b.move_piece o d).2 = none) ∧
        (∀ q : Position, q ≠ o → q ≠ d →
          dictLookup q (b.move_piece o d).2 = dictLookup q b)) ∧
    ((Board.new.move_piece ⟨.E, ⟨2⟩⟩ ⟨.E, ⟨4⟩⟩).2.has_piece_at ⟨.E, ⟨2⟩⟩ = false ∧
     (Board.new.move_piece ⟨.E, ⟨2⟩⟩ ⟨.E, ⟨4⟩⟩).2.has_piece_at ⟨.E, ⟨4⟩⟩ = true ∧
     (Board.new.move_piece ⟨.E, ⟨2⟩⟩ ⟨.E, ⟨4⟩⟩).2.piece_at ⟨.E, ⟨4⟩⟩
       = Board.new.piece_at ⟨.E, ⟨2⟩⟩) := by
  refine ⟨?_, ?_, by decide, by decide, by decide⟩
  · intro b o d hnone
    simp [Board.move_piece, Board.remove_piece_at, hnone]
  · intro b o d piece hnd hsome
    have hmv : b.move_piece o d = (.ok (), dictInsert d piece (dictDrop o b)) := by
      simp [Board.move_piece, Board.remove_piece_at, Board.place_piece, hsome]
    rw [hmv]
    refine ⟨rfl, dictLookup_dictInsert_self d piece _, ?_, ?_⟩
    · intro hod
      rw [dictLookup_dictInsert_ne o d piece _ hod]
      exact dictLookup_dictDrop_self o b hnd
    · intro q hqo hqd
      rw [dictLookup_dictInsert_ne q d piece _ hqd]
      exact dictLookup_dictDrop_ne q o b hqo

/-- Witness for C2: on a fresh board, moving from the empty e3 fails and
leaves the board untouched, and after moving e2 to e4 the white pawn sits at
e4, e2 is empty, and an untouched square (d1) still holds its piece. -/
theorem movePiece_contract_w :
    Board.new.move_piece ⟨.E, ⟨3⟩⟩ ⟨.E, ⟨4⟩⟩ =
      (.error (.illegalMove ("No piece present at " ++ posRepr ⟨.E, ⟨3⟩⟩)), Board.new) ∧
    dictLookup ⟨.E, ⟨4⟩⟩ (Board.new.move_piece ⟨.E, ⟨2⟩⟩ ⟨.E, ⟨4⟩⟩).2
      = some ⟨.PAWN, .WHITE⟩ ∧
    dictLookup ⟨.E, ⟨2⟩⟩ (Board.new.move_piece ⟨.E, ⟨2⟩⟩ ⟨.E, ⟨4⟩⟩).2 = none ∧
    dictLookup ⟨.D, ⟨1⟩⟩ (Board.new.move_piece ⟨.E, ⟨2⟩⟩ ⟨.E, ⟨4⟩⟩).2
      = dictLookup ⟨.D, ⟨1⟩⟩ Board.new := by
  have h := movePiece_contract
  have h2 := h.2.1 Board.new ⟨.E, ⟨2⟩⟩ ⟨.E, ⟨4⟩⟩ ⟨.PAWN, .WHITE⟩ (by decide) (by decide)
  exact ⟨h.1 Board.new ⟨.E, ⟨3⟩⟩ ⟨.E, ⟨4⟩⟩ (by decide),
    h2.2.1, h2.2.2.1 (by decide), h2.2.2.2 ⟨.D, ⟨1⟩⟩ (by decide) (by decide)⟩

/-! Reverse lookup by object identity. -/

theorem position_of_cons (q : Position) (u : TaggedPiece) (rest : BoardI)
    (t : TaggedPiece) :
    BoardI.position_of ((q, u) :: rest) t =
      if u.id = t.id then .ok q else BoardI.position_of rest t := by
  by_cases h : u.id = t.id
  · simp [BoardI.position_of, List.find?, h]
  · have hb : (u.id == t.id) = false := by simpa using h
    simp [BoardI.position_of, List.find?, h, hb]

theorem position_of_of_mem (b : BoardI)
    (hnd : (b.map (fun e => e.2.id)).Nodup)
    (p : Position) (t : TaggedPiece) (h : (p, t) ∈ b) :
    BoardI.position_of b t = .ok p := by
  induction b with
  | nil => simp at h
  | cons e rest ih =>
      obtain ⟨q, u⟩ := e
      simp only [List.map_cons, List.nodup_cons] at hnd
      rw [position_of_cons]
      rcases List.mem_cons.mp h with heq | hmem
      · obtain ⟨hp, ht⟩ := Prod.mk.injEq .. ▸ heq
        subst hp
        subst ht
        simp
      · have hid : u.id ≠ t.id := by
          intro hh
          exact hnd.1 (hh ▸ List.mem_map_of_mem (fun e => e.2.id) hmem)
        rw [if_neg hid]
        exact ih hnd.2 hmem

theorem position_of_none_of_fresh (b : BoardI) (t : TaggedPiece)
    (h : t.id ∉ b.map (fun e => e.2.id)) :
    BoardI.position_of b t = .error (.keyErr "piece not found on this board") := by
  induction b with
  | nil => rfl
  | cons e rest ih =>
      obtain ⟨q, u⟩ := e
      simp only [List.map_cons, List.mem_cons] at h
      push_neg at h
      rw [position_of_cons, if_neg (Ne.symm h.1)]
      exact ih h.2

/-- C4: `position_of` is a reverse lookup by object identity: for every piece
object stored on a board (whose stored objects are pairwise distinct, as
Python object identities are), it returns that piece's current position; and
for every piece object whose identity is not on the board — in particular a
freshly constructed piece value-equal to an on-board one — it fails with a
not-found error. -/
theorem position_of_identity_contract :
    (∀ (b : BoardI) (p : Position) (t : TaggedPiece),
        (b.map (fun e => e.2.id)).Nodup →
        dictLookup p b = some t →
        BoardI.position_of b t = .ok p) ∧
    (∀ (b : BoardI) (t : TaggedPiece),
        t.id ∉ b.map (fun e => e.2.id) →
        BoardI.position_of b t = .error (.keyErr "piece not found on this board")) :=
  ⟨fun b p t hnd h => position_of_of_mem b hnd p t (dictLookup_mem p t b h),
   fun b t h => position_of_none_of_fresh b t h⟩

/-- Witness for C4: on the fresh standard board, the pawn object stored at e2
(identity tag 12) is found back at e2, while a freshly constructed white pawn
(a new identity, value-equal to that one) is not found. -/
theorem position_of_identity_contract_w :
    BoardI.position_of BoardI.new ⟨12, ⟨.PAWN, .WHITE⟩⟩ = .ok ⟨.E, ⟨2⟩⟩ ∧
    BoardI.position_of BoardI.new ⟨99, ⟨.PAWN, .WHITE⟩⟩ =
      .error (.keyErr "piece not found on this board") :=
  ⟨position_of_identity_contract.1 BoardI.new ⟨.E, ⟨2⟩⟩ ⟨12, ⟨.PAWN, .WHITE⟩⟩
      (by decide) (by decide),
   position_of_identity_contract.2 BoardI.new ⟨99, ⟨.PAWN, .WHITE⟩⟩ (by decide)⟩

/-! Parser dispatch. -/

theorem orElse_eq_some {α : Type} (a : Option α) (f : Unit → Option α) (x : α) :
    a.orElse f = some x ↔ a = some x ∨ (a = none ∧ f () = some x) := by
  cases a <;> simp [Option.orElse]

theorem exceptIsOk_exists {α : Type} (e : Except ChessErr α)
    (h : exceptIsOk e = true) : ∃ x, e = .ok x := by
  cases e with
  | ok x => exact ⟨x, rfl⟩
  | error err => simp [exceptIsOk] at h

theorem matchDest_ok (l : List Char) (d : Char × Char) (h : matchDest l = some d) :
    fileClass.contains d.1 = true ∧ rankClass.contains d.2 = true := by
  cases l with
  | nil => simp [matchDest] at h
  | cons c1 l1 =>
      cases l1 with
      | nil => simp [matchDest] at h
      | cons c2 rest =>
          simp only [matchDest] at h
          split at h
          · next hc =>
              simp only [Bool.and_eq_true] at hc
              injection h with hd
              subst hd
              exact ⟨hc.1, hc.2⟩
          · exact absurd h (by simp)

theorem capHead_ok (l : List Char) (cap : Option Char) (d : Char × Char)
    (h : capHead l = some (cap, d)) :
    fileClass.contains d.1 = true ∧ rankClass.contains d.2 = true := by
  cases l with
  | nil => simp [capHead] at h
  | cons c rest =>
      simp only [capHead] at h
      split at h
      · rcases Option.map_eq_some'.mp h with ⟨a, ha, heq⟩
        injection heq with hcap hd
        subst hd
        exact matchDest_ok rest _ ha
      · exact absurd h (by simp)

theorem matchCapDest_ok (l : List Char) (cap : Option Char) (d : Char × Char)
    (h : matchCapDest l = some (cap, d)) :
    fileClass.contains d.1 = true ∧ rankClass.contains d.2 = true := by
  unfold matchCapDest at h
  rcases (orElse_eq_some _ _ _).mp h with h1 | ⟨_, h2⟩
  · exact capHead_ok l cap d h1
  · rcases Option.map_eq_some'.mp h2 with ⟨a, ha, heq⟩
    injection heq with hcap hd
    subst hd
    exact matchDest_ok l _ ha

theorem originHead_ok (l : List Char)
    (orig : Option (Char × Char)) (cap : Option Char) (d : Char × Char)
    (h : originHead l = some (orig, cap, d)) :
    (∀ c1 c2, orig = some (c1, c2) →
        fileClass.contains c1 = true ∧ rankClass.contains c2 = true) ∧
    fileClass.contains d.1 = true ∧ rankClass.contains d.2 = true := by
  cases l with
  | nil => simp [originHead] at h
  | cons cf l1 =>
      cases l1 with
      | nil => simp [originHead] at h
      | cons cr rest =>
          simp only [originHead] at h
          split at h
          · next hc =>
              simp only [Bool.and_eq_true] at hc
              rcases Option.map_eq_some'.mp h with ⟨t, ht, heq⟩
              injection heq with horg htl
              subst htl
              refine ⟨?_, matchCapDest_ok rest cap d ht⟩
              intro c1 c2 hoc
              rw [← horg] at hoc
              injection hoc with hoc
              injection hoc with hoc1 hoc2
              rw [← hoc1, ← hoc2]
              exact ⟨hc.1, hc.2⟩
          · exact absurd h (by simp)

theorem matchOriginTail_ok (l : List Char)
    (orig : Option (Char × Char)) (cap : Option Char) (d : Char × Char)
    (h : matchOriginTail l = some (orig, cap, d)) :
    (∀ c1 c2, orig = some (c1, c2) →
        fileClass.contains c1 = true ∧ rankClass.contains c2 = true) ∧
    fileClass.contains d.1 = true ∧ rankClass.contains d.2 = true := by
  unfold matchOriginTail at h
  rcases (orElse_eq_some _ _ _).mp h with h1 | ⟨_, h2⟩
  · exact originHead_ok l orig cap d h1
  · rcases Option.map_eq_some'.mp h2 with ⟨t, ht, heq⟩
    injection heq with horg htl
    subst htl
    refine ⟨fun c1 c2 hoc => ?_, matchCapDest_ok l cap d ht⟩
    rw [← horg] at hoc
    exact absurd hoc (by simp)

theorem regexMatch_classes (l : List Char) (g : RegexGroups)
    (h : regexMatch l = some g) :
    (∀ c, g.piece_kind = some c → pieceClass.contains c = true) ∧
    (∀ c1 c2, g.origin = some (c1, c2) →
        fileClass.contains c1 = true ∧ rankClass.contains c2 = true) ∧
    fileClass.contains g.destination.1 = true ∧
    rankClass.contains g.destination.2 = true := by
  unfold regexMatch at h
  rcases (orElse_eq_some _ _ _).mp h with h1 | ⟨_, h2⟩
  · cases l with
    | nil => simp [pieceHead] at h1
    | cons c rest =>
        simp only [pieceHead] at h1
        split at h1
        · next hc =>
            rcases Option.map_eq_some'.mp h1 with ⟨t, ht, heq⟩
            subst heq
            obtain ⟨ho, hd⟩ := matchOriginTail_ok rest t.1 t.2.1 t.2.2 ht
            exact ⟨fun c' hc' => by injection hc' with hc'; rw [← hc']; exact hc,
              ho, hd⟩
        · exact absurd h1 (by simp)
  · rcases Option.map_eq_some'.mp h2 with ⟨t, ht, heq⟩
    subst heq
    obtain ⟨ho, hd⟩ := matchOriginTail_ok l t.1 t.2.1 t.2.2 ht
    exact ⟨fun c' hc' => by simp at hc', ho, hd⟩

theorem position_parse_isOk (cf cr : Char) (h1 : fileClass.contains cf = true)
    (h2 : rankClass.contains cr = true) :
    exceptIsOk (Position.from_algebraic (String.mk [cf, cr])) = true := by
  have hall : (fileClass.all fun a => rankClass.all fun b =>
      exceptIsOk (Position.from_algebraic (String.mk [a, b]))) = true := by decide
  have hf : cf ∈ fileClass := List.mem_of_elem_eq_true h1
  have hr : cr ∈ rankClass := List.mem_of_elem_eq_true h2
  have hrow := List.all_eq_true.mp hall cf hf
  exact List.all_eq_true.mp (by simpa using hrow) cr hr

theorem piece_parse_isOk (c : Char) (h : pieceClass.contains c = true) :
    exceptIsOk (PieceKind.from_letter (String.mk [c])) = true := by
  have hall : (pieceClass.all fun a =>
      exceptIsOk (PieceKind.from_letter (String.mk [a]))) = true := by decide
  exact List.all_eq_true.mp hall c (List.mem_of_elem_eq_true h)

theorem regular_isOk_of_match (s : String) (g : RegexGroups)
    (h : regexMatch s.data = some g) :
    ∃ m, RegularMove.from_algebraic s = .ok m := by
  obtain ⟨hpk, horig, hd1, hd2⟩ := regexMatch_classes s.data g h
  have hk : ∃ k, PieceKind.from_letter (groupText g.piece_kind) = .ok k := by
    cases hpc : g.piece_kind with
    | none => exact ⟨.PAWN, by decide⟩
    | some c => exact exceptIsOk_exists _ (piece_parse_isOk c (hpk c hpc))
  obtain ⟨k, hk⟩ := hk
  obtain ⟨pd, hpd⟩ := exceptIsOk_exists _
    (position_parse_isOk g.destination.1 g.destination.2 hd1 hd2)
  cases hoc : g.origin with
  | none =>
      refine ⟨.regular ⟨pd, none, some k, g.capture.isSome⟩, ?_⟩
      unfold RegularMove.from_algebraic
      rw [h]
      simp only [bind, Except.bind, hk, hpd, hoc, pure, Except.pure]
  | some o =>
      obtain ⟨hc1, hc2⟩ := horig o.1 o.2 (by rw [hoc])
      obtain ⟨po, hpo⟩ :=
        exceptIsOk_exists _ (position_parse_isOk o.1 o.2 hc1 hc2)
      refine ⟨.regular ⟨pd, some po, some k, g.capture.isSome⟩, ?_⟩
      unfold RegularMove.from_algebraic
      rw [h]
      simp only [bind, Except.bind, hk, hpd, hoc, Except.map, hpo, pure, Except.pure]

theorem regular_dichotomy (s : String) :
    (∃ m, RegularMove.from_algebraic s = .ok m) ∨
    RegularMove.from_algebraic s = .error (.invalidNota none) := by
  cases h : regexMatch s.data with
  | none =>
      right
      unfold RegularMove.from_algebraic
      rw [h]
  | some g => exact Or.inl (regular_isOk_of_match s g h)

theorem castling_dichotomy (s : String) :
    (∃ m, CastlingMove.from_algebraic s = .ok m) ∨
    CastlingMove.from_algebraic s = .error (.invalidNota none) := by
  unfold CastlingMove.from_algebraic
  split
  · exact Or.inl ⟨_, rfl⟩
  · split
    · exact Or.inl ⟨_, rfl⟩
    · split
      · exact Or.inl ⟨_, rfl⟩
      · split
        · exact Or.inl ⟨_, rfl⟩
        · exact Or.inr rfl

/-- C3 counterexample: on the token `"z9"`, which neither grammar accepts, the
parser fails with a bare `InvalidNotationError` whose payload is `none` — it
does not carry the offending token (or anything else). -/
theorem parser_error_payload_cex :
    Move.from_algebraic "z9" = .error (.invalidNota none) ∧
    (ChessErr.invalidNota none) ≠ (ChessErr.invalidNota (some "z9")) :=
  ⟨by decide, by decide⟩

/-- C3 as amended: the parser tries the RegularMove grammar first and the
CastlingMove grammar second, returns the result of the first variant whose
grammar accepts the token, and for every token accepted by neither grammar
(e.g. `"z9"` and `""`) fails with a `NotationError` that carries no payload
(the offending token is not attached). -/
theorem parser_dispatch (s : String) :
    (exceptIsOk (RegularMove.from_algebraic s) = true →
        Move.from_algebraic s = RegularMove.from_algebraic s) ∧
    (exceptIsOk (RegularMove.from_algebraic s) = false →
        exceptIsOk (CastlingMove.from_algebraic s) = true →
        Move.from_algebraic s = CastlingMove.from_algebraic s) ∧
    (exceptIsOk (RegularMove.from_algebraic s) = false →
        exceptIsOk (CastlingMove.from_algebraic s) = false →
        Move.from_algebraic s = .error (.invalidNota none)) ∧
    Move.from_algebraic "z9" = .error (.invalidNota none) ∧
    Move.from_algebraic "" = .error (.invalidNota none) := by
  refine ⟨?_, ?_, ?_, by decide, by decide⟩
  · intro h
    obtain ⟨m, hm⟩ := exceptIsOk_exists _ h
    unfold Move.from_algebraic
    rw [hm]
  · intro h1 h2
    rcases regular_dichotomy s with ⟨m, hm⟩ | hreg
    · rw [hm] at h1
      simp [exceptIsOk] at h1
    · obtain ⟨m, hm⟩ := exceptIsOk_exists _ h2
      unfold Move.from_algebraic
      rw [hreg, hm]
  · intro h1 h2
    rcases regular_dichotomy s with ⟨m, hm⟩ | hreg
    · rw [hm] at h1
      simp [exceptIsOk] at h1
    · rcases castling_dichotomy s with ⟨m, hm⟩ | hcas
      · rw [hm] at h2
        simp [exceptIsOk] at h2
      · unfold Move.from_algebraic
        rw [hreg, hcas]

/-- Witness for C3 (amended): the token `"e4"` is accepted by the RegularMove
grammar and the dispatcher returns that variant's result; `"O-O"` is rejected
by the RegularMove grammar, accepted by the CastlingMove grammar, and the
dispatcher returns the castling result. -/
theorem parser_dispatch_w :
    Move.from_algebraic "e4" = RegularMove.from_algebraic "e4" ∧
    Move.from_algebraic "O-O" = CastlingMove.from_algebraic "O-O" :=
  ⟨(parser_dispatch "e4").1 (by decide),
   (parser_dispatch "O-O").2.1 (by decide) (by decide)⟩

end ChessSpec
